import Mathlib

/-!
Verification model of the `freelist` C++ repository
(`include/freelist/freelist.h`): a fixed-capacity intrusive object pool.

The pool stores elements in an array of slot-sized cells; the first
`kElementOverheadCount` cells are overlapped by a packed control word
of four `index_type` fields `(next, count, free, tag)`.  Free slots link
through their own storage.  We embed the compile-time layout arithmetic
and the (sequential semantics of the) control-word operations
`push_index`, `pop_index`, `clear`, `alloc`, `get`/`index`, and the
allocator adaptor's `allocate`.

Machine integers of the chosen `index_type` are modelled as `Nat` with
arithmetic taken modulo `M = 2 ^ (8 * index bytes)` wherever the C++
performs `++`/`--` on `index_type`.
-/

namespace FreeListModel

/-- Width (in bytes) of `FreeList::index_type`, translated from the
`std::conditional` chain in the source: `Size ≤ max(uint8_t)` gives 1 byte,
else `Size / 2 ≤ max(uint16_t)` gives 2, else `Size / 4 ≤ max(uint32_t)`
gives 4, else 8. -/
def idxBytes (S : Nat) : Nat :=
  if S ≤ 2 ^ 8 - 1 then 1
  else if S / 2 ≤ 2 ^ 16 - 1 then 2
  else if S / 4 ≤ 2 ^ 32 - 1 then 4
  else 8

/-- The index-selection rule exactly as the specification words it. -/
def specIdxBytes (S : Nat) : Nat :=
  if S ≤ 2 ^ 8 - 1 then 1
  else if S / 2 ≤ 2 ^ 16 - 1 then 2
  else if S / 4 ≤ 2 ^ 32 - 1 then 4
  else 8

/-- `sizeof(Element)` where `Element` is the union of `T` and `index_type`:
`max(sizeof(T), sizeof(index_type))`.  `sT` is `sizeof(T)`. -/
def kElementSize (sT S : Nat) : Nat := max sT (idxBytes S)

/-- `sizeof(ControlFlags)`: four fields of `index_type`. -/
def kControlSize (S : Nat) : Nat := 4 * idxBytes S

/-- `kIndexCount = Size / kElementSize`: number of slot-sized cells. -/
def kIndexCount (sT S : Nat) : Nat := S / kElementSize sT S

/-- `kElementOverheadCount = (sizeof(control) + kElementSize - 1) / kElementSize`:
number of leading cells overlapped by the control word. -/
def kElementOverheadCount (sT S : Nat) : Nat :=
  (kControlSize S + kElementSize sT S - 1) / kElementSize sT S

/-- `FreeList::max_size() = kIndexCount - kElementOverheadCount`. -/
def max_size (sT S : Nat) : Nat := kIndexCount sT S - kElementOverheadCount sT S

/-- `FreeList::capacity()`, a synonym for `max_size()` in the source. -/
def capacity (sT S : Nat) : Nat := max_size sT S

/-- The layout constants a pool instantiation runs with: `M` is the modulus
of `index_type` arithmetic, `N` is `kIndexCount`, `H` is
`kElementOverheadCount`. -/
structure Layout where
  M : Nat
  N : Nat
  H : Nat
deriving DecidableEq

/-- The layout the source computes for `sizeof(T) = sT` and `Size = S`. -/
def layoutOf (sT S : Nat) : Layout :=
  { M := 2 ^ (8 * idxBytes S), N := kIndexCount sT S, H := kElementOverheadCount sT S }

/-- The packed control word `ControlFlags`, four `index_type` fields in the
source's declaration order. -/
structure ControlFlags where
  next : Nat
  count : Nat
  free : Nat
  tag : Nat
deriving DecidableEq

/-- Pool state: the control word plus, for each slot-sized cell, the value of
its `index` union member (the intrusive successor link while the slot is
free-listed). -/
structure Pool where
  control : ControlFlags
  slots : List Nat
deriving DecidableEq

/-- `FreeList::FreeList()`: `next = kElementOverheadCount`, everything else 0;
slot contents are uninitialised, so they are a parameter. -/
def initPool (L : Layout) (slots : List Nat) : Pool :=
  { control := { next := L.H, count := 0, free := 0, tag := 0 }, slots := slots }

/-- `FreeList::push_index()` (sequential semantics: the CAS succeeds on the
first attempt).  Returns the updated pool and the reserved index, `0` when
full.  Case split as in the source: if `free ≠ 0` pop the free-list head,
reading the successor stored in that slot and bumping `tag`; else if
`next < kIndexCount` take the frontier slot; else return `0`. -/
def push_index (L : Layout) (p : Pool) : Pool × Nat :=
  if p.control.free ≠ 0 then
    ({ p with control :=
        { p.control with
            free := p.slots.getD p.control.free 0,
            tag := (p.control.tag + 1) % L.M,
            count := (p.control.count + 1) % L.M } },
     p.control.free)
  else if p.control.next < L.N then
    ({ p with control :=
        { p.control with
            next := (p.control.next + 1) % L.M,
            count := (p.control.count + 1) % L.M } },
     p.control.next)
  else
    (p, 0)

/-- `FreeList::pop_index(index)` (sequential semantics): write the current
free head into the freed slot's `index` member, point `free` at the freed
slot, bump `tag`, decrement `count` (machine decrement on `index_type`). -/
def pop_index (L : Layout) (p : Pool) (i : Nat) : Pool :=
  { control :=
      { p.control with
          free := i,
          tag := (p.control.tag + 1) % L.M,
          count := (p.control.count + (L.M - 1)) % L.M },
    slots := p.slots.set i p.control.free }

/-- The free-chain walk of `FreeList::clear()`: marks each visited slot in
the `itemIsFree` table, following the successor stored in the slot, until
the head is the sentinel `0` (fuel bounds the walk, which in the C++ `while`
loop terminates only on acyclic chains). -/
def markFree (slots : List Nat) : Nat → Nat → (Nat → Bool) → Nat → Bool
  | 0, _, m => m
  | fuel + 1, head, m =>
    if head = 0 then m
    else markFree slots fuel (slots.getD head 0) (fun j => if j = head then true else m j)

/-- The list of slot indices visited when walking the free chain from `head`
(the same traversal as `markFree`, collected as a list). -/
def chainList (slots : List Nat) : Nat → Nat → List Nat
  | 0, _ => []
  | fuel + 1, head =>
    if head = 0 then []
    else head :: chainList slots fuel (slots.getD head 0)

/-- `FreeList::clear()`: walk the free chain to mark freed slots, then
finalise every slot in `[kElementOverheadCount, next)` that is not marked,
then reset the control word to its initial value.  Returns the list of
finalised slot indices together with the reset pool. -/
def clear (L : Layout) (p : Pool) : List Nat × Pool :=
  let m := markFree p.slots L.N p.control.free (fun _ => false)
  let finalised := (List.range' L.H (p.control.next - L.H)).filter (fun i => !(m i))
  (finalised,
   { p with control := { next := L.H, count := 0, free := 0, tag := 0 } })

/-- `FreeList::~FreeList()`: the destructor just calls `clear()`. -/
def destruct (L : Layout) (p : Pool) : List Nat × Pool := clear L p

/-- Outcome of `FreeList::alloc`: success with a slot, `std::bad_alloc` on
exhaustion, or the element initialiser's exception re-raised after rollback. -/
inductive AllocResult where
  | ok (p : Pool) (i : Nat)
  | exhausted (p : Pool)
  | initFailure (p : Pool)
deriving DecidableEq

/-- `FreeList::alloc(args...)`: reserve a slot with `push_index`; if it
returns `0` throw `bad_alloc`; otherwise run the element initialiser
(modelled by the flag `initOk`); on initialiser failure, `pop_index` the
reserved slot and re-raise. -/
def alloc (L : Layout) (p : Pool) (initOk : Bool) : AllocResult :=
  let r := push_index L p
  if r.2 = 0 then .exhausted r.1
  else if initOk then .ok r.1 r.2
  else .initFailure (pop_index L r.1 r.2)

/-- `FreeListAllocator::allocate(n)`: `bad_alloc` unless `n = 1`; otherwise
reserve via the parent pool's `push_index`, `bad_alloc` when it returns `0`. -/
def allocate (L : Layout) (p : Pool) (n : Nat) : Except Unit (Pool × Nat) :=
  if n ≠ 1 then .error ()
  else
    let r := push_index L p
    if r.2 ≠ 0 then .ok (r.1, r.2) else .error ()

/-- `FreeList::get(index)`: the byte offset from the pool base of
`&data.elements[index].data`, with `e = kElementSize`. -/
def get (e i : Nat) : Nat := i * e

/-- `FreeList::index(item)`: recover the slot index from a pointer's byte
offset `off` from the pool base, by `Element*` pointer subtraction. -/
def index (e off : Nat) : Nat := off / e

/-- Concrete layout used by the witnesses: `M = 256`, `N = 4`, `H = 1`. -/
def Lw : Layout := { M := 256, N := 4, H := 1 }

/-- Witness pool with a non-empty free list (head at slot 2, successor 0). -/
def pwA : Pool := { control := { next := 3, count := 2, free := 2, tag := 5 }, slots := [0, 0, 0, 0] }

/-- Witness pool with an empty free list and unexhausted frontier. -/
def pwB : Pool := { control := { next := 2, count := 1, free := 0, tag := 5 }, slots := [0, 0, 0, 0] }

/-- Witness pool that is full: empty free list, frontier at `N`. -/
def pwC : Pool := { control := { next := 4, count := 3, free := 0, tag := 5 }, slots := [0, 0, 0, 0] }

/-- Witness pool for `pop_index`: slots 1, 2 live, free list empty. -/
def pwPop : Pool := { control := { next := 3, count := 2, free := 0, tag := 7 }, slots := [0, 0, 0, 0] }

/-- Freshly constructed witness pool. -/
def pw0 : Pool := initPool Lw [0, 0, 0, 0]

/-- The pool state reached from `pw0` by an `alloc` whose initialiser fails. -/
def p3w : Pool := { control := { next := 2, count := 0, free := 1, tag := 1 }, slots := [0, 0, 0, 0] }

/-- `idxBytes` always returns one of 1, 2, 4, 8, hence is positive. -/
theorem idxBytes_pos (S : Nat) : 0 < idxBytes S := by
  unfold idxBytes
  repeat' split
  all_goals decide

/-- `kElementSize` is positive: a slot always has room for an index. -/
theorem kElementSize_pos (sT S : Nat) : 0 < kElementSize sT S :=
  lt_of_lt_of_le (idxBytes_pos S) (le_max_right sT (idxBytes S))

/-- A slot is marked by the free-chain walk exactly when it was already
marked or it occurs in the chain the walk visits. -/
theorem markFree_mem (slots : List Nat) (fuel : Nat) :
    ∀ (head : Nat) (m : Nat → Bool) (j : Nat),
      markFree slots fuel head m j = true ↔
        j ∈ chainList slots fuel head ∨ m j = true := by
  induction fuel with
  | zero => intro head m j; simp [markFree, chainList]
  | succ fuel ih =>
    intro head m j
    by_cases h : head = 0
    · simp [markFree, chainList, h]
    · simp only [markFree, chainList, if_neg h]
      rw [ih]
      by_cases hj : j = head
      · subst hj; simp
      · simp [hj]

/-- Unfolding of `push_index` when the free list is non-empty. -/
theorem push_index_of_free (L : Layout) (p : Pool) (h : p.control.free ≠ 0) :
    push_index L p =
      ({ p with control :=
          { next := p.control.next,
            count := (p.control.count + 1) % L.M,
            free := p.slots.getD p.control.free 0,
            tag := (p.control.tag + 1) % L.M } },
       p.control.free) := by
  simp [push_index, h]

/-- Claim C1: `push_index` performs exactly one of three transitions on the
control word.  Case A (`free ≠ 0`): return the old head, set `free` to the
successor stored in that slot, increment `tag` and `count`, leave `next`
unchanged.  Case B (`free = 0`, `next < slotCount`): return the
pre-increment `next`, increment `next` and `count`, leave `free` and `tag`
unchanged.  Case C (`free = 0`, `next = slotCount`): return the sentinel
`0` and change nothing. -/
theorem push_index_cases (L : Layout) (p : Pool) :
    (p.control.free ≠ 0 →
      push_index L p =
        ({ p with control :=
            { next := p.control.next,
              count := (p.control.count + 1) % L.M,
              free := p.slots.getD p.control.free 0,
              tag := (p.control.tag + 1) % L.M } },
         p.control.free)) ∧
    (p.control.free = 0 → p.control.next < L.N →
      push_index L p =
        ({ p with control :=
            { next := (p.control.next + 1) % L.M,
              count := (p.control.count + 1) % L.M,
              free := p.control.free,
              tag := p.control.tag } },
         p.control.next)) ∧
    (p.control.free = 0 → p.control.next = L.N →
      push_index L p = (p, 0)) := by
  refine ⟨fun h => push_index_of_free L p h, fun h1 h2 => ?_, fun h1 h2 => ?_⟩
  · simp [push_index, h1, h2]
  · simp [push_index, h1, h2]

/-- Witness for C1: one concrete pool per case. -/
theorem push_index_cases_witness :
    push_index Lw pwA =
      ({ pwA with control :=
          { next := pwA.control.next,
            count := (pwA.control.count + 1) % Lw.M,
            free := pwA.slots.getD pwA.control.free 0,
            tag := (pwA.control.tag + 1) % Lw.M } },
       pwA.control.free) ∧
    push_index Lw pwB =
      ({ pwB with control :=
          { next := (pwB.control.next + 1) % Lw.M,
            count := (pwB.control.count + 1) % Lw.M,
            free := pwB.control.free,
            tag := pwB.control.tag } },
       pwB.control.next) ∧
    push_index Lw pwC = (pwC, 0) :=
  ⟨(push_index_cases Lw pwA).1 (by decide),
   (push_index_cases Lw pwB).2.1 (by decide) (by decide),
   (push_index_cases Lw pwC).2.2 (by decide) (by decide)⟩

/-- Claim C2: for an index `i` in `[headerSlots, slotCount)` of a live slot
(`count` positive and in range), `pop_index i` writes the old free head into
the successor field of slot `i`, sets `free` to `i`, increments `tag`,
decrements `count`, and leaves `next` unchanged. -/
theorem pop_index_spec (L : Layout) (p : Pool) (i : Nat)
    (_h1 : L.H ≤ i) (_h2 : i < L.N)
    (hc0 : 0 < p.control.count) (hcM : p.control.count < L.M) :
    pop_index L p i =
      { control :=
          { next := p.control.next,
            count := p.control.count - 1,
            free := i,
            tag := (p.control.tag + 1) % L.M },
        slots := p.slots.set i p.control.free } := by
  have hcount : (p.control.count + (L.M - 1)) % L.M = p.control.count - 1 := by
    have h3 : p.control.count + (L.M - 1) = (p.control.count - 1) + L.M := by omega
    rw [h3, Nat.add_mod_right, Nat.mod_eq_of_lt (by omega)]
  simp [pop_index, hcount]

/-- Witness for C2: pop slot 2 of a pool with two live slots. -/
theorem pop_index_spec_witness :
    pop_index Lw pwPop 2 =
      { control :=
          { next := pwPop.control.next,
            count := pwPop.control.count - 1,
            free := 2,
            tag := (pwPop.control.tag + 1) % Lw.M },
        slots := pwPop.slots.set 2 pwPop.control.free } :=
  pop_index_spec Lw pwPop 2 (by decide) (by decide) (by decide) (by decide)

/-- Claim C9: index/pointer translation round-trips.  With
`e = kElementSize` the slot size, `index (get i) = i` for every slot index,
and `get (index off) = off` for every byte offset that is a multiple of the
slot size (the precondition on pointers obtained from this pool). -/
theorem get_index_roundtrip (sT S i off : Nat)
    (hd : kElementSize sT S ∣ off) :
    index (kElementSize sT S) (get (kElementSize sT S) i) = i ∧
    get (kElementSize sT S) (index (kElementSize sT S) off) = off := by
  have he : 0 < kElementSize sT S := kElementSize_pos sT S
  constructor
  · exact Nat.mul_div_cancel i he
  · exact Nat.div_mul_cancel hd

/-- Witness for C9: the 8-byte-slot instantiation at slot 7, offset 16. -/
theorem get_index_roundtrip_witness :
    index (kElementSize 8 8000) (get (kElementSize 8 8000) 7) = 7 ∧
    get (kElementSize 8 8000) (index (kElementSize 8 8000) 16) = 16 :=
  get_index_roundtrip 8 8000 7 16 (by decide)

/-- Claim C10: freed slots are reused LIFO.  Immediately after
`pop_index i`, the next `push_index` returns exactly `i`, and an `alloc`
with a succeeding initialiser hands back the just-freed slot `i`. -/
theorem lifo_reuse (L : Layout) (p : Pool) (i : Nat) (hi : 0 < i) :
    (push_index L (pop_index L p i)).2 = i ∧
    alloc L (pop_index L p i) true =
      .ok (push_index L (pop_index L p i)).1 i := by
  have hne : i ≠ 0 := Nat.pos_iff_ne_zero.mp hi
  constructor
  · simp [push_index, pop_index, hne]
  · simp [alloc, push_index, pop_index, hne]

/-- Witness for C10: pop slot 2 then push, in a concrete pool. -/
theorem lifo_reuse_witness :
    (push_index Lw (pop_index Lw pwA 2)).2 = 2 ∧
    alloc Lw (pop_index Lw pwA 2) true =
      .ok (push_index Lw (pop_index Lw pwA 2)).1 2 :=
  lifo_reuse Lw pwA 2 (by decide)

/-- Claim C5: `capacity()` (and its synonym `max_size()`) equals
`slotCount - headerSlots` where `SlotSize = max(sizeof(T), sizeof(Index))`,
`slotCount = S / SlotSize` and
`headerSlots = ceil(sizeof(ControlWord) / SlotSize)`; concretely, for an
8-byte element type and `S = 8000`, `capacity() = 999`. -/
theorem capacity_arithmetic :
    (∀ sT S, capacity sT S =
        S / max sT (idxBytes S) - kControlSize S ⌈/⌉ max sT (idxBytes S)) ∧
    (∀ sT S, capacity sT S = max_size sT S) ∧
    capacity 8 8000 = 999 ∧ max_size 8 8000 = 999 := by
  refine ⟨fun sT S => ?_, fun sT S => rfl, by decide, by decide⟩
  unfold capacity max_size kIndexCount kElementOverheadCount kElementSize
  rw [Nat.ceilDiv_eq_add_pred_div]

/-- Claim C6: the index width is chosen by the source's conditional chain,
which coincides with the spec's rule, and (for any `S` in `uint64_t` range)
it is the first (smallest) width among 1, 2, 4, 8 such that `S / w` fits in
an unsigned integer of `w` bytes. -/
theorem index_width_rule (S : Nat) :
    idxBytes S = specIdxBytes S ∧
    (S < 2 ^ 64 →
      List.find? (fun w => decide (S / w ≤ 2 ^ (8 * w) - 1)) [1, 2, 4, 8] =
        some (idxBytes S)) := by
  refine ⟨rfl, fun hS => ?_⟩
  set q : Nat → Bool := fun w => decide (S / w ≤ 2 ^ (8 * w) - 1) with hq
  by_cases h1 : S ≤ 2 ^ 8 - 1
  · have e1 : q 1 = true := by
      simp only [hq, decide_eq_true_eq, Nat.div_one]
      simpa using h1
    rw [List.find?_cons_of_pos _ e1]
    have h1' : S ≤ 255 := by simpa using h1
    simp [idxBytes, h1']
  · have e1 : ¬q 1 = true := by
      simp only [hq, decide_eq_true_eq, Nat.div_one]
      simpa using h1
    rw [List.find?_cons_of_neg _ e1]
    by_cases h2 : S / 2 ≤ 2 ^ 16 - 1
    · have e2 : q 2 = true := by
        simp only [hq, decide_eq_true_eq]
        simpa using h2
      rw [List.find?_cons_of_pos _ e2]
      have h1' : ¬S ≤ 255 := by simpa using h1
      have h2' : S / 2 ≤ 65535 := by simpa using h2
      simp [idxBytes, h1', h2']
    · have e2 : ¬q 2 = true := by
        simp only [hq, decide_eq_true_eq]
        simpa using h2
      rw [List.find?_cons_of_neg _ e2]
      by_cases h3 : S / 4 ≤ 2 ^ 32 - 1
      · have e3 : q 4 = true := by
          simp only [hq, decide_eq_true_eq]
          simpa using h3
        rw [List.find?_cons_of_pos _ e3]
        have h1' : ¬S ≤ 255 := by simpa using h1
        have h2' : ¬S / 2 ≤ 65535 := by simpa using h2
        have h3' : S / 4 ≤ 4294967295 := by simpa using h3
        simp [idxBytes, h1', h2', h3']
      · have e3 : ¬q 4 = true := by
          simp only [hq, decide_eq_true_eq]
          simpa using h3
        rw [List.find?_cons_of_neg _ e3]
        have e4 : q 8 = true := by
          simp only [hq, decide_eq_true_eq]
          norm_num at hS ⊢
          omega
        rw [List.find?_cons_of_pos _ e4]
        have h1' : ¬S ≤ 255 := by simpa using h1
        have h2' : ¬S / 2 ≤ 65535 := by simpa using h2
        have h3' : ¬S / 4 ≤ 4294967295 := by simpa using h3
        simp [idxBytes, h1', h2', h3']

/-- Witness for C6: `S = 8000` selects the 2-byte index width. -/
theorem index_width_rule_witness :
    idxBytes 8000 = specIdxBytes 8000 ∧
    List.find? (fun w => decide (8000 / w ≤ 2 ^ (8 * w) - 1)) [1, 2, 4, 8] =
      some (idxBytes 8000) :=
  ⟨(index_width_rule 8000).1, (index_width_rule 8000).2 (by norm_num)⟩

/-- Claim C4: exhaustion reporting.  When the pool has no free slot
(`free = 0` and the frontier is exhausted), `alloc` fails with exhaustion
(`push_index` having returned the sentinel `0`); the allocator adaptor's
`allocate n` fails whenever `n ≠ 1`, and for `n = 1` it returns a reserved
slot or fails exactly when `push_index` returns `0`. -/
theorem exhaustion_reporting (L : Layout) (p : Pool) (n : Nat) (b : Bool) :
    (p.control.free = 0 → L.N ≤ p.control.next → alloc L p b = .exhausted p) ∧
    (n ≠ 1 → allocate L p n = .error ()) ∧
    (allocate L p 1 =
      if (push_index L p).2 = 0 then .error ()
      else .ok ((push_index L p).1, (push_index L p).2)) := by
  refine ⟨fun h1 h2 => ?_, fun h => ?_, ?_⟩
  · simp [alloc, push_index, h1, Nat.not_lt.mpr h2]
  · simp [allocate, h]
  · by_cases h0 : (push_index L p).2 = 0
    · simp [allocate, h0]
    · simp [allocate, h0]

/-- Witness for C4: the full pool `pwC` and a 2-element request. -/
theorem exhaustion_reporting_witness :
    alloc Lw pwC true = .exhausted pwC ∧
    allocate Lw pwC 2 = .error () ∧
    (allocate Lw pwC 1 =
      if (push_index Lw pwC).2 = 0 then .error ()
      else .ok ((push_index Lw pwC).1, (push_index Lw pwC).2)) :=
  ⟨(exhaustion_reporting Lw pwC 2 true).1 (by decide) (by decide),
   (exhaustion_reporting Lw pwC 2 true).2.1 (by decide),
   (exhaustion_reporting Lw pwC 2 true).2.2⟩

/-- Claim C3: rollback on initialiser failure.  If `alloc` with a failing
initialiser ends in `initFailure`, the reserved slot was returned through
`pop_index`, `count` (hence `size()`) is unchanged, and the next
`push_index` succeeds, returning that very slot again. -/
theorem alloc_rollback (L : Layout) (p : Pool) (p1 : Pool)
    (hcM : p.control.count + 1 < L.M)
    (h : alloc L p false = .initFailure p1) :
    p1 = pop_index L (push_index L p).1 (push_index L p).2 ∧
    p1.control.count = p.control.count ∧
    (push_index L p1).2 = (push_index L p).2 ∧
    (push_index L p).2 ≠ 0 := by
  have h0 : (push_index L p).2 ≠ 0 := by
    intro h0
    simp [alloc, h0] at h
  have h1 : p1 = pop_index L (push_index L p).1 (push_index L p).2 := by
    have h' := h
    simp [alloc, h0] at h'
    exact h'.symm
  have hc1 : (push_index L p).1.control.count = (p.control.count + 1) % L.M := by
    by_cases hf : p.control.free ≠ 0
    · simp [push_index, hf]
    · by_cases hn : p.control.next < L.N
      · simp [push_index, hf, hn]
      · exact absurd (by simp [push_index, hf, hn]) h0
  have hcnt : p1.control.count = p.control.count := by
    rw [h1]
    show ((push_index L p).1.control.count + (L.M - 1)) % L.M = p.control.count
    rw [hc1, Nat.mod_eq_of_lt hcM]
    have h3 : p.control.count + 1 + (L.M - 1) = p.control.count + L.M := by omega
    rw [h3, Nat.add_mod_right, Nat.mod_eq_of_lt (by omega)]
  have hfree : p1.control.free = (push_index L p).2 := by
    rw [h1]
    rfl
  have hpush : (push_index L p1).2 = (push_index L p).2 := by
    have hne : p1.control.free ≠ 0 := by
      rw [hfree]
      exact h0
    rw [push_index_of_free L p1 hne]
    exact hfree
  exact ⟨h1, hcnt, hpush, h0⟩

/-- Witness for C3: a failing `alloc` on the fresh pool `pw0`. -/
theorem alloc_rollback_witness :
    p3w = pop_index Lw (push_index Lw pw0).1 (push_index Lw pw0).2 ∧
    p3w.control.count = pw0.control.count ∧
    (push_index Lw p3w).2 = (push_index Lw pw0).2 ∧
    (push_index Lw pw0).2 ≠ 0 :=
  alloc_rollback Lw pw0 p3w (by decide) (by decide)

/-- Claim C8: `clear` finalises exactly the slots in
`[headerSlots, next)` that are not on the free chain, resets the control
word to its initial state, leaves slot storage as it was, and the
destructor performs this same `clear`. -/
theorem clear_spec (L : Layout) (p : Pool) :
    (∀ i, i ∈ (clear L p).1 ↔
        (L.H ≤ i ∧ i < p.control.next ∧
          i ∉ chainList p.slots L.N p.control.free)) ∧
    (clear L p).2 =
      { p with control := { next := L.H, count := 0, free := 0, tag := 0 } } ∧
    destruct L p = clear L p := by
  refine ⟨fun i => ?_, rfl, rfl⟩
  have hm : ∀ j, markFree p.slots L.N p.control.free (fun _ => false) j = true ↔
      j ∈ chainList p.slots L.N p.control.free := by
    intro j
    rw [markFree_mem]
    simp
  show i ∈ (List.range' L.H (p.control.next - L.H)).filter
      (fun i => !(markFree p.slots L.N p.control.free (fun _ => false) i)) ↔ _
  simp only [List.mem_filter, List.mem_range'_1]
  constructor
  · rintro ⟨⟨hlo, hhi⟩, hb⟩
    refine ⟨hlo, by omega, fun hc => ?_⟩
    have ht := (hm i).mpr hc
    rw [ht] at hb
    exact absurd hb (by decide)
  · rintro ⟨h1, h2, h3⟩
    refine ⟨⟨h1, by omega⟩, ?_⟩
    cases hmk : markFree p.slots L.N p.control.free (fun _ => false) i with
    | false => simp [hmk]
    | true => exact absurd ((hm i).mp hmk) h3

end FreeListModel
